import Mathlib

/-!
Verification of the Calamari OCR evaluation engine
(`calamari_ocr/ocr/evaluator.py`).

Strings are modelled as lists of Unicode code points (`List Char`), as the
spec's data model prescribes.  Python dictionaries keyed by fragment pairs
are modelled extensionally as count functions `ConfKey → Nat` with absent
keys mapped to `0`; this matches Python `dict` equality because the code
only ever stores strictly positive counts.  Python exceptions are modelled
with `Except`.
-/

set_option maxHeartbeats 1000000

namespace Calamari

abbrev Text := List Char

abbrev ConfKey := Text × Text

abbrev ConfMap := ConfKey → Nat

def emptyConf : ConfMap := fun _ => 0

/-- Modelled from the spec: the external `edit_distance` package used by
`evaluator.py` (`errs, trues = edit_distance(gt, pred)`) is not part of the
repository.  The spec (section 3, section 4.1, GLOSSARY) defines `char_errors`
as the raw Levenshtein edit distance: minimum number of single-character
insertions, deletions and substitutions, matches cost 0. -/
def edit_distance : Text → Text → Nat
  | [], ys => ys.length
  | x :: xs, [] => (x :: xs).length
  | x :: xs, y :: ys =>
    if x = y then edit_distance xs ys
    else 1 + min (edit_distance xs ys)
               (min (edit_distance (x :: xs) ys) (edit_distance xs (y :: ys)))
termination_by xs ys => xs.length + ys.length
decreasing_by
  all_goals simp only [List.length_cons]
  all_goals omega

/-- One edit operation of an alignment transforming the ground truth into
the prediction. -/
inductive EditOp where
  | keep (c : Char)
  | subst (g p : Char)
  | ins (p : Char)
  | del (g : Char)
deriving DecidableEq

def opCost : EditOp → Nat
  | .keep _ => 0
  | _ => 1

def alignCost (ops : List EditOp) : Nat := (ops.map opCost).sum

/-- Modelled from the spec: the Aligner (section 4.1, backing the repository
function `synchronize` from `calamari_ocr.ocr.dataset.textprocessors`, which
is not under `src/`).  Computes a minimum-cost alignment path with the
deterministic tie-break "prefer match > substitution > insertion > deletion". -/
def align : Text → Text → List EditOp
  | [], ys => ys.map .ins
  | x :: xs, [] => (x :: xs).map .del
  | x :: xs, y :: ys =>
    if x = y then .keep x :: align xs ys
    else
      let s := align xs ys
      let i := align (x :: xs) ys
      let d := align xs (y :: ys)
      if alignCost s ≤ alignCost i ∧ alignCost s ≤ alignCost d then .subst x y :: s
      else if alignCost i ≤ alignCost d then .ins y :: i
      else .del x :: d
termination_by xs ys => xs.length + ys.length
decreasing_by
  all_goals simp only [List.length_cons]
  all_goals omega

/-- A synchronization block: a pair of fragments of ground truth and
prediction covering a maximal run of non-match operations, or one single
match operation. -/
structure SyncBlock where
  gt_str : Text
  pred_str : Text
deriving DecidableEq

def opGt : EditOp → Text
  | .keep c => [c]
  | .subst g _ => [g]
  | .ins _ => []
  | .del g => [g]

def opPred : EditOp → Text
  | .keep c => [c]
  | .subst _ p => [p]
  | .ins p => [p]
  | .del _ => []

def isMatchOp : EditOp → Bool
  | .keep _ => true
  | _ => false

/-- Modelled from the spec (section 4.1): walk the alignment path and collapse
consecutive non-match operations not separated by a match into one block; a
match operation becomes its own matched block.  The first argument carries the
pending collapsed mismatch fragments, if any. -/
def collapseOps : Option (Text × Text) → List EditOp → List SyncBlock
  | none, [] => []
  | some (g, p), [] => [⟨g, p⟩]
  | none, op :: rest =>
    if isMatchOp op then ⟨opGt op, opPred op⟩ :: collapseOps none rest
    else collapseOps (some (opGt op, opPred op)) rest
  | some (g, p), op :: rest =>
    if isMatchOp op then ⟨g, p⟩ :: ⟨opGt op, opPred op⟩ :: collapseOps none rest
    else collapseOps (some (g ++ opGt op, p ++ opPred op)) rest

/-- Modelled from the spec: `synchronize([gt, pred])` from the repository
module `calamari_ocr.ocr.dataset.textprocessors` (not under `src/`), returning
the sequence of synchronization blocks of the chosen alignment. -/
def synchronize (gt pred : Text) : List SyncBlock :=
  collapseOps none (align gt pred)

/-- The per-pair record, `SingleEvalData` in `evaluator.py`. -/
structure SingleEvalData where
  chars : Nat
  char_errs : Nat
  sync_errs : Nat
  conf : ConfMap
  gt_pred : Text × Text

/-- Errors raised by the evaluator: the sentinel guard of `evaluate_single`,
the gt/pred count mismatch guard of `evaluate`, and Python's
`ZeroDivisionError` from `total_char_errs / total_chars`. -/
inductive EvalError where
  | sentinelSet
  | countMismatch
  | zeroDivision
deriving DecidableEq

/-- Python dict increment `confusion[key] = v` / `confusion[key] += v`; with
the extensional count-function model both branches add `v` at `key`. -/
def confIncr (c : ConfMap) (key : ConfKey) (v : Nat) : ConfMap :=
  fun k => if k = key then c k + v else c k

/-- Body of the loop over the synchronization list in `evaluate_single`:
a mismatched block adds `max(len(gt_str), len(pred_str))` to the sync-error
accumulator and increments the confusion count of `(gt_str, pred_str)`. -/
def syncStep (acc : Nat × ConfMap) (sync : SyncBlock) : Nat × ConfMap :=
  if sync.gt_str ≠ sync.pred_str then
    (acc.1 + max sync.gt_str.length sync.pred_str.length,
     confIncr acc.2 (sync.gt_str, sync.pred_str) 1)
  else acc

/-- Body of `Evaluator.evaluate_single` after the sentinel check. -/
def evaluate_single_core (gt pred : Text) (skip_empty_gt : Bool) : SingleEvalData :=
  if gt.length = 0 ∧ skip_empty_gt = true then
    ⟨0, 0, 0, emptyConf, (gt, pred)⟩
  else
    let errs := edit_distance gt pred
    let folded := (synchronize gt pred).foldl syncStep (0, emptyConf)
    ⟨gt.length, errs, folded.1, folded.2, (gt, pred)⟩

/-- `Evaluator.evaluate_single`: raises when the sentinel is not `None`,
otherwise evaluates the pair. -/
def evaluate_single (sentinel : Option Unit) (gt pred : Text) (skip_empty_gt : Bool) :
    Except EvalError SingleEvalData :=
  match sentinel with
  | some _ => .error .sentinelSet
  | none => .ok (evaluate_single_core gt pred skip_empty_gt)

def totalInstances (eval_results : List SingleEvalData) : Nat :=
  eval_results.foldl (fun n _ => n + 1) 0

def totalChars (eval_results : List SingleEvalData) : Nat :=
  eval_results.foldl (fun n r => n + r.chars) 0

def totalCharErrs (eval_results : List SingleEvalData) : Nat :=
  eval_results.foldl (fun n r => n + r.char_errs) 0

def totalSyncErrs (eval_results : List SingleEvalData) : Nat :=
  eval_results.foldl (fun n r => n + r.sync_errs) 0

/-- Python dict merge from `evaluate_single_list`: for every key of `b`, add
its count to the entry of `a`, inserting absent keys. -/
def confAdd (a b : ConfMap) : ConfMap := fun k => a k + b k

def mergeConfs (eval_results : List SingleEvalData) : ConfMap :=
  eval_results.foldl (fun c r => confAdd c r.conf) emptyConf

/-- The evaluation dictionary returned by `evaluate_single_list`. -/
structure EvalDict where
  single : List SingleEvalData
  total_instances : Nat
  avg_ler : ℚ
  total_chars : Nat
  total_char_errs : Nat
  total_sync_errs : Nat
  confusion : ConfMap

/-- Python integer true division `a / b`: raises `ZeroDivisionError` when the
denominator is zero, otherwise yields the exact quotient. -/
def pydiv (a b : Nat) : Except EvalError ℚ :=
  if b = 0 then .error .zeroDivision else .ok ((a : ℚ) / (b : ℚ))

/-- `Evaluator.evaluate_single_list`: folds the per-pair records into totals
and a merged confusion table, optionally retaining all records, and computes
`avg_ler = total_char_errs / total_chars`. -/
def evaluate_single_list (eval_results : List SingleEvalData) (store_all : Bool) :
    Except EvalError EvalDict :=
  match pydiv (totalCharErrs eval_results) (totalChars eval_results) with
  | .error e => .error e
  | .ok ler =>
    .ok ⟨if store_all then eval_results else [],
         totalInstances eval_results, ler,
         totalChars eval_results, totalCharErrs eval_results,
         totalSyncErrs eval_results, mergeConfs eval_results⟩

/-- Modelled from the spec: tfaip's `parallel_map` (external, not under
`src/`).  Per section 5 of the spec, workers may complete in any order —
here the order given by `sched`, a permutation of the input indices — each
result is tagged with its original index, and the output sequence is
reassembled in original index order before being returned.  The worker count
bounds the pool size only and does not influence the result. -/
def parallel_map (_processes : Nat) (sched : List Nat) (f : α → β) (xs : List α) : List β :=
  let completed := sched.filterMap (fun i => (xs[i]?).map (fun x => (i, f x)))
  (List.range xs.length).filterMap (fun i => List.lookup i completed)

/-- `Evaluator.evaluate`: checks the gt/pred count, maps `evaluate_single`
(with no sentinel) over the zipped pairs through `parallel_map`, and folds
the records with `evaluate_single_list(out, True)`.  The unused `_sentinel`
parameter mirrors the Python signature, where it is declared but never
checked; `sched` models the runtime's completion order. -/
def evaluate (_sentinel : Option Unit) (gt_data pred_data : List Text)
    (processes : Nat) (sched : List Nat) (skip_empty_gt : Bool) :
    Except EvalError EvalDict :=
  if gt_data.length ≠ pred_data.length then .error .countMismatch
  else
    evaluate_single_list
      (parallel_map processes sched
        (fun gp => evaluate_single_core gp.1 gp.2 skip_empty_gt)
        (gt_data.zip pred_data))
      true

/-! Statement-side formulations used by the theorems. -/

def isMismatch (b : SyncBlock) : Bool := decide (b.gt_str ≠ b.pred_str)

def blockErr (b : SyncBlock) : Nat := max b.gt_str.length b.pred_str.length

/-- Sum of `max(len(gt_fragment), len(pred_fragment))` over the mismatched
synchronization blocks. -/
def syncErrSum (blocks : List SyncBlock) : Nat :=
  ((blocks.filter isMismatch).map blockErr).sum

/-- Number of mismatched synchronization blocks whose fragment pair is `k`. -/
def confCount (blocks : List SyncBlock) (k : ConfKey) : Nat :=
  blocks.countP (fun b => isMismatch b && decide ((b.gt_str, b.pred_str) = k))

/-- Identity of the aggregates produced by `evaluate_single_list` on two
record sequences: same `total_instances`, `total_chars`, `total_char_errs`,
`total_sync_errs`, and the same confusion table. -/
def aggEqOn (l₁ l₂ : List SingleEvalData) : Prop :=
  ∀ (b : Bool) (d₁ d₂ : EvalDict),
    evaluate_single_list l₁ b = .ok d₁ → evaluate_single_list l₂ b = .ok d₂ →
      d₁.total_instances = d₂.total_instances ∧
      d₁.total_chars = d₂.total_chars ∧
      d₁.total_char_errs = d₂.total_char_errs ∧
      d₁.total_sync_errs = d₂.total_sync_errs ∧
      ∀ k, d₁.confusion k = d₂.confusion k

/-- Splitting a record sequence into two parts, aggregating each part
(summing totals, merging confusion tables by adding counts for identical
keys) equals aggregating the full sequence directly. -/
def aggSplit : Prop :=
  ∀ (m₁ m₂ : List SingleEvalData) (b : Bool) (d : EvalDict),
    evaluate_single_list (m₁ ++ m₂) b = .ok d →
      d.total_instances = totalInstances m₁ + totalInstances m₂ ∧
      d.total_chars = totalChars m₁ + totalChars m₂ ∧
      d.total_char_errs = totalCharErrs m₁ + totalCharErrs m₂ ∧
      d.total_sync_errs = totalSyncErrs m₁ + totalSyncErrs m₂ ∧
      ∀ k, d.confusion k = confAdd (mergeConfs m₁) (mergeConfs m₂) k

/-- A concrete per-pair record used to instantiate the aggregation claims. -/
def recA : SingleEvalData := ⟨1, 1, 1, emptyConf, (['a'], ['b'])⟩

/-- A second concrete per-pair record used to instantiate the aggregation
claims. -/
def recB : SingleEvalData := ⟨2, 0, 0, emptyConf, (['c', 'd'], ['c', 'd'])⟩

/-! Fold lemmas relating the accumulating loops to closed-form sums. -/

lemma foldl_add_eq (g : SingleEvalData → Nat) :
    ∀ (l : List SingleEvalData) (a : Nat),
      l.foldl (fun n r => n + g r) a = a + (l.map g).sum
  | [], a => by simp
  | r :: l, a => by
    simp only [List.foldl_cons, List.map_cons, List.sum_cons,
      foldl_add_eq g l (a + g r)]
    omega

lemma totalChars_eq (l : List SingleEvalData) :
    totalChars l = (l.map (fun r => r.chars)).sum := by
  simpa using foldl_add_eq (fun r => r.chars) l 0

lemma totalCharErrs_eq (l : List SingleEvalData) :
    totalCharErrs l = (l.map (fun r => r.char_errs)).sum := by
  simpa using foldl_add_eq (fun r => r.char_errs) l 0

lemma totalSyncErrs_eq (l : List SingleEvalData) :
    totalSyncErrs l = (l.map (fun r => r.sync_errs)).sum := by
  simpa using foldl_add_eq (fun r => r.sync_errs) l 0

lemma totalInstances_eq (l : List SingleEvalData) : totalInstances l = l.length := by
  have h : ∀ (m : List SingleEvalData) (a : Nat),
      m.foldl (fun n _ => n + 1) a = a + m.length := by
    intro m
    induction m with
    | nil => simp
    | cons r m ih => intro a; simp [ih]; omega
  simpa using h l 0

lemma mergeConfs_apply : ∀ (l : List SingleEvalData) (c : ConfMap) (k : ConfKey),
    (l.foldl (fun c r => confAdd c r.conf) c) k = c k + (l.map (fun r => r.conf k)).sum
  | [], c, k => by simp
  | r :: l, c, k => by
    simp only [List.foldl_cons, List.map_cons, List.sum_cons,
      mergeConfs_apply l (confAdd c r.conf) k, confAdd]
    omega

lemma mergeConfs_eq (l : List SingleEvalData) (k : ConfKey) :
    mergeConfs l k = (l.map (fun r => r.conf k)).sum := by
  simpa [mergeConfs, emptyConf] using mergeConfs_apply l emptyConf k

lemma syncFold_fst : ∀ (blocks : List SyncBlock) (acc : Nat × ConfMap),
    (blocks.foldl syncStep acc).1 = acc.1 + syncErrSum blocks
  | [], acc => by simp [syncErrSum]
  | b :: blocks, acc => by
    by_cases h : b.gt_str = b.pred_str
    · simp only [List.foldl_cons, syncStep, h, ne_eq, not_true_eq_false, if_false,
        syncFold_fst blocks acc]
      simp [syncErrSum, isMismatch, h]
    · simp only [List.foldl_cons, syncStep, ne_eq, h, not_false_iff, if_true,
        syncFold_fst blocks _]
      simp [syncErrSum, isMismatch, h, blockErr]
      omega

lemma syncFold_snd : ∀ (blocks : List SyncBlock) (acc : Nat × ConfMap) (k : ConfKey),
    (blocks.foldl syncStep acc).2 k = acc.2 k + confCount blocks k
  | [], acc, k => by simp [confCount]
  | b :: blocks, acc, k => by
    by_cases h : b.gt_str = b.pred_str
    · simp only [List.foldl_cons, syncStep, h, ne_eq, not_true_eq_false, if_false,
        syncFold_snd blocks acc k]
      simp [confCount, List.countP_cons, isMismatch, h]
    · simp only [List.foldl_cons, syncStep, ne_eq, h, not_false_iff, if_true,
        syncFold_snd blocks _ k]
      simp only [confCount, List.countP_cons, isMismatch, ne_eq, h, not_false_iff,
        decide_True, Bool.true_and, confIncr]
      by_cases hk : k = (b.gt_str, b.pred_str)
      · simp [hk]
        omega
      · have hk2 : ¬ ((b.gt_str, b.pred_str) = k) := fun hh => hk hh.symm
        simp [hk, hk2]

/-! Lemmas on the scheduling model of `parallel_map`: whatever completion
order the workers use, reassembly by original index restores the sequential
result. -/

lemma lookup_tagged_none {α β : Type _} (f : α → β) (xs : List α) (i : Nat)
    (hi : xs[i]? = none) :
    ∀ sched : List Nat,
      List.lookup i (sched.filterMap (fun j => (xs[j]?).map (fun x => (j, f x)))) = none
  | [] => by simp
  | j :: sched => by
    cases hj : xs[j]? with
    | none =>
      simpa [List.filterMap_cons, hj] using lookup_tagged_none f xs i hi sched
    | some x =>
      have hij : (i == j) = false := by
        simp only [beq_eq_false_iff_ne, ne_eq]
        intro hij
        rw [hij, hj] at hi
        cases hi
      simpa [List.filterMap_cons, hj, List.lookup, hij]
        using lookup_tagged_none f xs i hi sched

lemma lookup_tagged_mem {α β : Type _} (f : α → β) (xs : List α) :
    ∀ (sched : List Nat) (i : Nat), i ∈ sched →
      List.lookup i (sched.filterMap (fun j => (xs[j]?).map (fun x => (j, f x))))
        = (xs[i]?).map f
  | [], i, hi => absurd hi (List.not_mem_nil i)
  | j :: sched, i, hi => by
    by_cases hij : i = j
    · subst hij
      cases hx : xs[i]? with
      | none => simpa [List.filterMap_cons, hx] using lookup_tagged_none f xs i hx sched
      | some x => simp [List.filterMap_cons, hx, List.lookup]
    · have hmem : i ∈ sched := by
        cases List.mem_cons.mp hi with
        | inl h => exact absurd h hij
        | inr h => exact h
      cases hj : xs[j]? with
      | none =>
        simpa [List.filterMap_cons, hj] using lookup_tagged_mem f xs sched i hmem
      | some x =>
        have hb : (i == j) = false := by simpa [beq_eq_false_iff_ne] using hij
        simpa [List.filterMap_cons, hj, List.lookup, hb]
          using lookup_tagged_mem f xs sched i hmem

lemma filterMap_ext_mem {α β : Type _} :
    ∀ (l : List α) (f g : α → Option β), (∀ a ∈ l, f a = g a) →
      l.filterMap f = l.filterMap g
  | [], _, _, _ => rfl
  | a :: l, f, g, h => by
    have ha := h a (List.mem_cons_self a l)
    have hrest := filterMap_ext_mem l f g (fun x hx => h x (List.mem_cons_of_mem a hx))
    simp [List.filterMap_cons, ha, hrest]

lemma range_filterMap_get {α β : Type _} (f : α → β) :
    ∀ xs : List α,
      (List.range xs.length).filterMap (fun i => (xs[i]?).map f) = xs.map f
  | [] => rfl
  | x :: xs => by
    rw [List.length_cons, List.range_succ_eq_map, List.filterMap_cons]
    simp only [List.getElem?_cons_zero, Option.map_some', List.filterMap_map,
      List.map_cons]
    congr 1
    calc (List.range xs.length).filterMap ((fun i => ((x :: xs)[i]?).map f) ∘ Nat.succ)
        = (List.range xs.length).filterMap (fun i => (xs[i]?).map f) :=
          filterMap_ext_mem _ _ _
            (fun i _ => by simp [Function.comp, List.getElem?_cons_succ])
      _ = xs.map f := range_filterMap_get f xs

lemma parallel_map_perm {α β : Type _} (f : α → β) (xs : List α) (p : Nat)
    (sched : List Nat) (hs : sched.Perm (List.range xs.length)) :
    parallel_map p sched f xs = xs.map f := by
  unfold parallel_map
  have h1 : ∀ i ∈ List.range xs.length,
      List.lookup i (sched.filterMap (fun j => (xs[j]?).map (fun x => (j, f x))))
        = (xs[i]?).map f :=
    fun i hi => lookup_tagged_mem f xs sched i (hs.mem_iff.mpr hi)
  calc (List.range xs.length).filterMap
          (fun i => List.lookup i (sched.filterMap (fun j => (xs[j]?).map (fun x => (j, f x)))))
      = (List.range xs.length).filterMap (fun i => (xs[i]?).map f) :=
        filterMap_ext_mem _ _ _ h1
    _ = xs.map f := range_filterMap_get f xs

/-- Inversion of a successful `evaluate_single_list` call: every field of the
returned dictionary is the corresponding accumulated total. -/
lemma evaluate_single_list_ok (l : List SingleEvalData) (b : Bool) (d : EvalDict)
    (h : evaluate_single_list l b = .ok d) :
    d.single = (if b then l else []) ∧
    d.total_instances = totalInstances l ∧
    d.total_chars = totalChars l ∧
    d.total_char_errs = totalCharErrs l ∧
    d.total_sync_errs = totalSyncErrs l ∧
    d.confusion = mergeConfs l := by
  unfold evaluate_single_list at h
  cases hp : pydiv (totalCharErrs l) (totalChars l) with
  | error e => rw [hp] at h; cases h
  | ok ler =>
    rw [hp] at h
    cases h
    exact ⟨rfl, rfl, rfl, rfl, rfl, rfl⟩

/-- With matching lengths and a valid schedule, `evaluate` reduces to the
sequential fold over the zipped pairs. -/
lemma evaluate_ok_form (gt_data pred_data : List Text) (p : Nat) (sched : List Nat)
    (skip : Bool) (hlen : gt_data.length = pred_data.length)
    (hsched : sched.Perm (List.range (gt_data.zip pred_data).length)) :
    evaluate none gt_data pred_data p sched skip =
      evaluate_single_list
        ((gt_data.zip pred_data).map (fun gp => evaluate_single_core gp.1 gp.2 skip))
        true := by
  unfold evaluate
  rw [if_neg (by simp [hlen]),
    parallel_map_perm (fun gp => evaluate_single_core gp.1 gp.2 skip)
      (gt_data.zip pred_data) p sched hsched]

/-- Claim C1: for every pair of strings with non-empty ground truth or
`skip_empty_gt` false, `evaluate_single` returns the record whose char count
is `len(gt)`, whose char-error count is the edit distance between `gt` and
`pred`, whose sync-error count is the sum over mismatched synchronization
blocks of `max(len(gt_fragment), len(pred_fragment))`, whose confusion
mapping counts each mismatched block once under its fragment-pair key, and
whose pair equals the input. -/
theorem C1_evaluate_single_record (gt pred : Text) (skip : Bool)
    (h : gt ≠ [] ∨ skip = false) :
    evaluate_single none gt pred skip =
      .ok ⟨gt.length, edit_distance gt pred,
           syncErrSum (synchronize gt pred),
           fun k => confCount (synchronize gt pred) k,
           (gt, pred)⟩ := by
  have hcond : ¬ (gt.length = 0 ∧ skip = true) := by
    rcases h with h | h
    · exact fun hc => h (List.length_eq_zero.mp hc.1)
    · exact fun hc => by rw [h] at hc; cases hc.2
  unfold evaluate_single evaluate_single_core
  rw [if_neg hcond]
  refine congrArg Except.ok ?_
  have h1 := syncFold_fst (synchronize gt pred) (0, emptyConf)
  have h2 := fun k => syncFold_snd (synchronize gt pred) (0, emptyConf) k
  simp only [emptyConf, Nat.zero_add] at h1 h2
  have h2f : ((synchronize gt pred).foldl syncStep (0, emptyConf)).2
      = fun k => confCount (synchronize gt pred) k := funext fun k => h2 k
  show SingleEvalData.mk gt.length (edit_distance gt pred)
      ((synchronize gt pred).foldl syncStep (0, emptyConf)).1
      ((synchronize gt pred).foldl syncStep (0, emptyConf)).2 (gt, pred) = _
  rw [h1, h2f]

/-- Witness for C1 at `gt = "a"`, `pred = "b"`, `skip_empty_gt = true`. -/
theorem C1_witness :
    ((['a'] : Text) ≠ [] ∨ true = false) ∧
    evaluate_single none ['a'] ['b'] true =
      .ok ⟨(['a'] : Text).length, edit_distance ['a'] ['b'],
           syncErrSum (synchronize ['a'] ['b']),
           fun k => confCount (synchronize ['a'] ['b']) k,
           (['a'], ['b'])⟩ :=
  ⟨Or.inl (by decide), C1_evaluate_single_record ['a'] ['b'] true (Or.inl (by decide))⟩

/-- Claim C2: aggregation is permutation-invariant on totals and confusion
table, and aggregating a concatenation equals summing the two partial
aggregates, merging confusion tables by adding counts for identical keys. -/
theorem C2_aggregation_comm_assoc (l₁ l₂ : List SingleEvalData) (h : l₁.Perm l₂) :
    aggEqOn l₁ l₂ ∧ aggSplit := by
  constructor
  · intro b d₁ d₂ h₁ h₂
    obtain ⟨-, hi₁, hc₁, he₁, hs₁, hm₁⟩ := evaluate_single_list_ok l₁ b d₁ h₁
    obtain ⟨-, hi₂, hc₂, he₂, hs₂, hm₂⟩ := evaluate_single_list_ok l₂ b d₂ h₂
    refine ⟨?_, ?_, ?_, ?_, ?_⟩
    · rw [hi₁, hi₂, totalInstances_eq, totalInstances_eq, h.length_eq]
    · rw [hc₁, hc₂, totalChars_eq, totalChars_eq, (h.map _).sum_eq]
    · rw [he₁, he₂, totalCharErrs_eq, totalCharErrs_eq, (h.map _).sum_eq]
    · rw [hs₁, hs₂, totalSyncErrs_eq, totalSyncErrs_eq, (h.map _).sum_eq]
    · intro k
      rw [hm₁, hm₂, mergeConfs_eq, mergeConfs_eq, (h.map _).sum_eq]
  · intro m₁ m₂ b d hd
    obtain ⟨-, hi, hc, he, hs, hm⟩ := evaluate_single_list_ok (m₁ ++ m₂) b d hd
    refine ⟨?_, ?_, ?_, ?_, ?_⟩
    · rw [hi, totalInstances_eq, totalInstances_eq, totalInstances_eq,
        List.length_append]
    · rw [hc, totalChars_eq, totalChars_eq, totalChars_eq, List.map_append,
        List.sum_append]
    · rw [he, totalCharErrs_eq, totalCharErrs_eq, totalCharErrs_eq,
        List.map_append, List.sum_append]
    · rw [hs, totalSyncErrs_eq, totalSyncErrs_eq, totalSyncErrs_eq,
        List.map_append, List.sum_append]
    · intro k
      rw [hm, confAdd, mergeConfs_eq, mergeConfs_eq, mergeConfs_eq,
        List.map_append, List.sum_append]

/-- Witness for C2 at the two concrete records `recA`, `recB` swapped. -/
theorem C2_witness :
    ([recA, recB].Perm [recB, recA]) ∧ (aggEqOn [recA, recB] [recB, recA] ∧ aggSplit) :=
  ⟨List.Perm.swap recB recA [],
   C2_aggregation_comm_assoc [recA, recB] [recB, recA] (List.Perm.swap recB recA [])⟩

/-- Claim C3: with equal gt and pred counts, `evaluate` with one worker and
`evaluate` with `k ≥ 1` workers (any completion order) return identical
evaluation dictionaries — totals, confusion table, and retained per-pair
records in original pair index order. -/
theorem C3_parallel_determinism (gt_data pred_data : List Text) (skip : Bool)
    (k : Nat) (sched : List Nat) (_hk : 1 ≤ k)
    (hlen : gt_data.length = pred_data.length)
    (hsched : sched.Perm (List.range (gt_data.zip pred_data).length)) :
    evaluate none gt_data pred_data k sched skip =
      evaluate none gt_data pred_data 1
        (List.range (gt_data.zip pred_data).length) skip := by
  rw [evaluate_ok_form gt_data pred_data k sched skip hlen hsched,
    evaluate_ok_form gt_data pred_data 1 _ skip hlen (List.Perm.refl _)]

/-- Witness for C3 at a one-pair corpus with two workers. -/
theorem C3_witness :
    (1 ≤ 2) ∧ ([['a']] : List Text).length = ([['b']] : List Text).length ∧
    ([0] : List Nat).Perm (List.range (([['a']] : List Text).zip [['b']]).length) ∧
    evaluate none [['a']] [['b']] 2 [0] false =
      evaluate none [['a']] [['b']] 1
        (List.range (([['a']] : List Text).zip [['b']]).length) false :=
  ⟨by decide, by decide, by decide,
   C3_parallel_determinism [['a']] [['b']] false 2 [0] (by decide) (by decide) (by decide)⟩

/-- Claim C4: when the char counts of the records sum to zero, computing the
average label error rate in `evaluate_single_list` is a defined, catchable
failure surfaced to the caller (the division-by-zero error of
`total_char_errs / total_chars`), not a silent NaN or zero. -/
theorem C4_zero_chars_error (l : List SingleEvalData) (b : Bool)
    (h : (l.map (fun r => r.chars)).sum = 0) :
    evaluate_single_list l b = .error .zeroDivision := by
  have htc : totalChars l = 0 := by rw [totalChars_eq, h]
  unfold evaluate_single_list
  simp [pydiv, htc]

/-- Witness for C4 at the empty record list. -/
theorem C4_witness :
    (([] : List SingleEvalData).map (fun r => r.chars)).sum = 0 ∧
    evaluate_single_list [] false = .error .zeroDivision :=
  ⟨rfl, C4_zero_chars_error [] false rfl⟩

/-- Claim C5: with empty ground truth and `skip_empty_gt = true`,
`evaluate_single` returns the zero record with the pair unchanged and raises
no error. -/
theorem C5_skip_empty_gt (gt pred : Text) (h : gt.length = 0) :
    evaluate_single none gt pred true = .ok ⟨0, 0, 0, emptyConf, (gt, pred)⟩ := by
  simp [evaluate_single, evaluate_single_core, h]

/-- Witness for C5 at `gt = ""`, `pred = "x"`. -/
theorem C5_witness :
    (([] : Text).length = 0) ∧
    evaluate_single none [] ['x'] true = .ok ⟨0, 0, 0, emptyConf, ([], ['x'])⟩ :=
  ⟨rfl, C5_skip_empty_gt [] ['x'] rfl⟩

/-- Claim C6: when the gt and pred counts differ, `evaluate` returns the
count-mismatch error, for every worker count, schedule and skip flag. -/
theorem C6_count_mismatch (gt_data pred_data : List Text) (p : Nat)
    (sched : List Nat) (skip : Bool) (h : gt_data.length ≠ pred_data.length) :
    evaluate none gt_data pred_data p sched skip = .error .countMismatch := by
  simp [evaluate, h]

/-- Witness for C6 at one gt line and no pred lines. -/
theorem C6_witness :
    (([['a']] : List Text).length ≠ ([] : List Text).length) ∧
    evaluate none [['a']] [] 1 [0] false = .error .countMismatch :=
  ⟨by decide, C6_count_mismatch [['a']] [] 1 [0] false (by decide)⟩

/-- Claim C7: every key of the confusion mapping of `evaluate_single` has
distinct fragments, and the merge of `evaluate_single_list` preserves this
invariant. -/
theorem C7_confusion_mismatched_only :
    (∀ (gt pred : Text) (skip : Bool) (k : ConfKey),
        (evaluate_single_core gt pred skip).conf k ≠ 0 → k.1 ≠ k.2) ∧
    (∀ l : List SingleEvalData,
        (∀ r ∈ l, ∀ k : ConfKey, r.conf k ≠ 0 → k.1 ≠ k.2) →
        ∀ k : ConfKey, mergeConfs l k ≠ 0 → k.1 ≠ k.2) := by
  constructor
  · intro gt pred skip k hk
    unfold evaluate_single_core at hk
    by_cases hc : gt.length = 0 ∧ skip = true
    · rw [if_pos hc] at hk
      exact absurd rfl hk
    · rw [if_neg hc] at hk
      simp only at hk
      rw [syncFold_snd (synchronize gt pred) (0, emptyConf) k] at hk
      have hcc : confCount (synchronize gt pred) k ≠ 0 := by
        simpa [emptyConf] using hk
      have hpos : 0 < (synchronize gt pred).countP
          (fun b => isMismatch b && decide ((b.gt_str, b.pred_str) = k)) :=
        Nat.pos_of_ne_zero hcc
      obtain ⟨blk, -, hblk⟩ := List.countP_pos_iff.mp hpos
      have hmis : blk.gt_str ≠ blk.pred_str := by
        have := (Bool.and_eq_true _ _).mp hblk
        exact of_decide_eq_true (by simpa [isMismatch] using this.1)
      have hkey : (blk.gt_str, blk.pred_str) = k :=
        of_decide_eq_true ((Bool.and_eq_true _ _).mp hblk).2
      rw [← hkey]
      exact hmis
  · intro l hl k hk
    rw [mergeConfs_eq] at hk
    have : ∃ r ∈ l, r.conf k ≠ 0 := by
      by_contra hno
      push_neg at hno
      exact hk (List.sum_eq_zero (by
        intro x hx
        obtain ⟨r, hr, hrx⟩ := List.mem_map.mp hx
        rw [← hrx]
        exact hno r hr))
    obtain ⟨r, hr, hrk⟩ := this
    exact hl r hr k hrk

/-- Witness for C7: the mismatched pair ("a","b") yields a nonzero confusion
count at a key with distinct fragments, and a singleton merge preserves it. -/
theorem C7_witness :
    ((evaluate_single_core ['a'] ['b'] false).conf (['a'], ['b']) ≠ 0) ∧
    ((['a'] : Text) ≠ ['b']) :=
  ⟨by simp [evaluate_single_core, synchronize, align, alignCost, opCost, collapseOps,
      isMatchOp, opGt, opPred, syncStep, confIncr, emptyConf, edit_distance],
   C7_confusion_mismatched_only.1 ['a'] ['b'] false (['a'], ['b'])
     (by simp [evaluate_single_core, synchronize, align, alignCost, opCost, collapseOps,
        isMatchOp, opGt, opPred, syncStep, confIncr, emptyConf, edit_distance])⟩

/-- Claim C8: the corpus `[("ab","ab"), ("","x")]` with `skip_empty_gt = true`
aggregates to 2 instances, 2 chars, 0 char errors, 0 sync errors, an empty
confusion table and an average label error rate of 0. -/
theorem C8_example_corpus :
    ∃ d : EvalDict,
      evaluate none [['a', 'b'], []] [['a', 'b'], ['x']] 1 [0, 1] true = .ok d ∧
      d.total_instances = 2 ∧ d.total_chars = 2 ∧ d.total_char_errs = 0 ∧
      d.total_sync_errs = 0 ∧ (∀ k, d.confusion k = 0) ∧ d.avg_ler = 0 := by
  refine ⟨_, rfl, ?_, ?_, ?_, ?_, ?_, ?_⟩ <;>
    simp [evaluate, parallel_map, evaluate_single_list, evaluate_single_core,
      synchronize, align, alignCost, opCost, collapseOps, isMatchOp, opGt, opPred,
      syncStep, confIncr, emptyConf, edit_distance, totalInstances, totalChars,
      totalCharErrs, totalSyncErrs, mergeConfs, confAdd, pydiv, List.lookup,
      List.range_succ, List.range_zero, List.filterMap_append, List.filterMap_cons,
      List.filterMap_nil, List.foldl_cons, List.foldl_nil]

/-- Counterexample to claim C9 as stated: calling `evaluate` with a non-None
first positional argument and valid keyword data does not raise — the
sentinel parameter of `evaluate` is declared but never checked, so evaluation
proceeds and succeeds. -/
theorem C9_counterexample :
    (evaluate (some ()) [['a']] [['a']] 1 [0] false).isOk = true := by
  rfl

/-- Claim C9 as amended: `evaluate_single` with a non-None sentinel raises
for all remaining arguments and performs no evaluation; `evaluate` ignores
its sentinel entirely, behaving identically to a call with sentinel None. -/
theorem C9_amended_sentinel :
    (∀ (gt pred : Text) (skip : Bool),
        evaluate_single (some ()) gt pred skip = .error .sentinelSet) ∧
    (∀ (s : Option Unit) (gt_data pred_data : List Text) (p : Nat)
        (sched : List Nat) (skip : Bool),
        evaluate s gt_data pred_data p sched skip =
          evaluate none gt_data pred_data p sched skip) :=
  ⟨fun _ _ _ => rfl, fun _ _ _ _ _ _ => rfl⟩

/-- Claim C10: `evaluate` retains all per-pair records: on a valid corpus the
returned dictionary's `single` field is exactly the list of `evaluate_single`
results of the input pairs, one per pair, in input order. -/
theorem C10_retains_all_records (gt_data pred_data : List Text) (p : Nat)
    (sched : List Nat) (skip : Bool)
    (hlen : gt_data.length = pred_data.length)
    (hsched : sched.Perm (List.range (gt_data.zip pred_data).length)) :
    ∀ d : EvalDict, evaluate none gt_data pred_data p sched skip = .ok d →
      d.single = (gt_data.zip pred_data).map
          (fun gp => evaluate_single_core gp.1 gp.2 skip) ∧
      d.single.length = gt_data.length := by
  intro d hd
  rw [evaluate_ok_form gt_data pred_data p sched skip hlen hsched] at hd
  obtain ⟨hs, -, -, -, -, -⟩ := evaluate_single_list_ok _ _ _ hd
  rw [if_pos rfl] at hs
  refine ⟨hs, ?_⟩
  rw [hs, List.length_map, List.length_zip, hlen, Nat.min_self]

/-- Witness for C10 at a one-pair corpus. -/
theorem C10_witness :
    (([['a']] : List Text).length = ([['b']] : List Text).length) ∧
    ([0] : List Nat).Perm (List.range (([['a']] : List Text).zip [['b']]).length) ∧
    (∀ d : EvalDict, evaluate none [['a']] [['b']] 1 [0] false = .ok d →
      d.single = (([['a']] : List Text).zip [['b']]).map
          (fun gp => evaluate_single_core gp.1 gp.2 false) ∧
      d.single.length = ([['a']] : List Text).length) :=
  ⟨by decide, by decide,
   C10_retains_all_records [['a']] [['b']] 1 [0] false (by decide) (by decide)⟩

end Calamari
